import Mathlib

/- Verification of LunarSim's height-field query kernels
   (src/terrain_management/large_scale_terrain/geometric_clipmaps_warp.py)
   and of the collider-cache reconciliation contract.

   Embedding conventions:
   * Warp float scalars are embedded as exact rationals (ℚ); warp arrays as
     Lean lists; wp.vec2i as a pair of integers.
   * Each GPU kernel is split into its per-thread body (a pure function of
     the thread's own inputs) and a batch operation mapping that body over
     the input arrays, mirroring the data-parallel map the kernels perform.
   * Warp's `int(x)` cast and `wp.trunc` round toward zero; both are
     embedded as `wtrunc`.
   * `wp.atomic_min(a, i, v)` / `wp.atomic_max` store the clamped value into
     the cell and RETURN THE OLD cell value; they are embedded as functions
     from (cell value, operand) to (new cell value, returned value) and the
     kernel body threads the cell state through explicitly. -/

namespace LunarSim

/-- Embedding of `wp.vec2f`: a pair of rational scalars. -/
structure Vec2 where
  x : ℚ
  y : ℚ
deriving DecidableEq

/-- Embedding of `wp.vec2i`: a pair of integers (DEM shape). -/
structure Vec2i where
  x : ℤ
  y : ℤ
deriving DecidableEq

/-- Embedding of `wp.vec3f`. -/
structure Vec3 where
  x : ℚ
  y : ℚ
  z : ℚ
deriving DecidableEq

/-- Embedding of `wp.vec4f` (used for the cubic coefficients). -/
structure Vec4 where
  c0 : ℚ
  c1 : ℚ
  c2 : ℚ
  c3 : ℚ
deriving DecidableEq

/-- Embedding of `wp.mat22f`; field `eIJ` is the source's `out[I, J]`. -/
structure Mat22 where
  e00 : ℚ
  e10 : ℚ
  e01 : ℚ
  e11 : ℚ
deriving DecidableEq

/-- Embedding of `wp.mat44f`; field `eIJ` is the source's `out[I, J]`. -/
structure Mat44 where
  e00 : ℚ
  e10 : ℚ
  e20 : ℚ
  e30 : ℚ
  e01 : ℚ
  e11 : ℚ
  e21 : ℚ
  e31 : ℚ
  e02 : ℚ
  e12 : ℚ
  e22 : ℚ
  e32 : ℚ
  e03 : ℚ
  e13 : ℚ
  e23 : ℚ
  e33 : ℚ
deriving DecidableEq

/-- Warp's float-to-int cast `int(x)` and `wp.trunc`: round toward zero. -/
def wtrunc (q : ℚ) : ℤ := if 0 ≤ q then ⌊q⌋ else -⌊-q⌋

/-- Embedding of `wp.atomic_min(a, tid, v)` acting on the single cell
`a[tid]`: the cell becomes `min cell v` (first component) and the call
returns the old cell value (second component). -/
def atomic_min (cell v : ℚ) : ℚ × ℚ := (min cell v, cell)

/-- Embedding of `wp.atomic_max(a, tid, v)` acting on the single cell
`a[tid]`: the cell becomes `max cell v` (first component) and the call
returns the old cell value (second component). -/
def atomic_max (cell v : ℚ) : ℚ × ℚ := (max cell v, cell)

/-- Per-thread body of the `_preprocess` kernel.  The source lines
`x[tid] = points[tid][0] / mpp + coord[0]` then
`x[tid] = wp.atomic_min(x, tid, dem_shape[0] - 1.0)` then
`x[tid] = wp.atomic_max(x, tid, 0.0)` (and the same for `y`) are embedded
by threading the cell state: each atomic first stores the clamped value,
then the enclosing assignment overwrites the cell with the atomic's
return value (the old cell content).  Returns the final `(x[tid], y[tid])`. -/
def _preprocess (p coord : Vec2) (mpp : ℚ) (dem_shape : Vec2) : ℚ × ℚ :=
  let xcell := p.x / mpp + coord.x
  let ycell := p.y / mpp + coord.y
  let xmin := atomic_min xcell (dem_shape.x - 1)
  let xcell := xmin.2
  let ymin := atomic_min ycell (dem_shape.y - 1)
  let ycell := ymin.2
  let xmax := atomic_max xcell 0
  let xcell := xmax.2
  let ymax := atomic_max ycell 0
  let ycell := ymax.2
  (xcell, ycell)

/-- Batch form of the `_preprocess` kernel: one thread per query point. -/
def _preprocess_batch (points : List Vec2) (coord : Vec2) (mpp : ℚ)
    (dem_shape : Vec2) : List (ℚ × ℚ) :=
  points.map (fun p => _preprocess p coord mpp dem_shape)

/-- Read of the flat DEM array `dem[i]`.  In warp an out-of-range index is
undefined behaviour; the embedding totalises it with 0 and the in-bounds
claims are stated through the index lists below. -/
def demGet (dem : List ℚ) (i : ℤ) : ℚ :=
  if h : 0 ≤ i ∧ i.toNat < dem.length then dem.get ⟨i.toNat, h.2⟩ else 0

/-- Embedding of `_get_2x2_mat`: gathers the 2x2 DEM patch at `(x, y)`.
`x0 = int(x)`, `y0 = int(y)`, `x1 = min(x0 + 1, W - 1) * H`,
`x0 = x0 * H`, `y1 = min(y0 + 1, H - 1)`, then `out[i, j] = dem[xi + yj]`. -/
def _get_2x2_mat (dem : List ℚ) (dem_shape : Vec2i) (x y : ℚ) : Mat22 :=
  let x0 := wtrunc x
  let y0 := wtrunc y
  let x1 := min (x0 + 1) (dem_shape.x - 1) * dem_shape.y
  let x0 := x0 * dem_shape.y
  let y1 := min (y0 + 1) (dem_shape.y - 1)
  { e00 := demGet dem (x0 + y0)
    e10 := demGet dem (x1 + y0)
    e01 := demGet dem (x0 + y1)
    e11 := demGet dem (x1 + y1) }

/-- The four flat DEM indices dereferenced by `_get_2x2_mat` at `(x, y)`,
in the order `out[0,0], out[1,0], out[0,1], out[1,1]`. -/
def _get_2x2_indices (dem_shape : Vec2i) (x y : ℚ) : List ℤ :=
  let x0 := wtrunc x
  let y0 := wtrunc y
  let x1 := min (x0 + 1) (dem_shape.x - 1) * dem_shape.y
  let x0 := x0 * dem_shape.y
  let y1 := min (y0 + 1) (dem_shape.y - 1)
  [x0 + y0, x1 + y0, x0 + y1, x1 + y1]

/-- Embedding of `_get_4x4_mat`: gathers the 4x4 DEM patch at `(x, y)`.
`x0 = max(int(x) - 1, 0)`, `y0 = max(int(y) - 1, 0)`,
`xk = min(x0 + k, W - 1) * H` for k = 1, 2, 3, `x0 = x0 * H`,
`yk = min(y0 + k, H - 1)`, then `out[i, j] = dem[xi + yj]`. -/
def _get_4x4_mat (dem : List ℚ) (dem_shape : Vec2i) (x y : ℚ) : Mat44 :=
  let x0 := max (wtrunc x - 1) 0
  let y0 := max (wtrunc y - 1) 0
  let x1 := min (x0 + 1) (dem_shape.x - 1) * dem_shape.y
  let x2 := min (x0 + 2) (dem_shape.x - 1) * dem_shape.y
  let x3 := min (x0 + 3) (dem_shape.x - 1) * dem_shape.y
  let x0 := x0 * dem_shape.y
  let y1 := min (y0 + 1) (dem_shape.y - 1)
  let y2 := min (y0 + 2) (dem_shape.y - 1)
  let y3 := min (y0 + 3) (dem_shape.y - 1)
  { e00 := demGet dem (x0 + y0)
    e10 := demGet dem (x1 + y0)
    e20 := demGet dem (x2 + y0)
    e30 := demGet dem (x3 + y0)
    e01 := demGet dem (x0 + y1)
    e11 := demGet dem (x1 + y1)
    e21 := demGet dem (x2 + y1)
    e31 := demGet dem (x3 + y1)
    e02 := demGet dem (x0 + y2)
    e12 := demGet dem (x1 + y2)
    e22 := demGet dem (x2 + y2)
    e32 := demGet dem (x3 + y2)
    e03 := demGet dem (x0 + y3)
    e13 := demGet dem (x1 + y3)
    e23 := demGet dem (x2 + y3)
    e33 := demGet dem (x3 + y3) }

/-- The sixteen flat DEM indices dereferenced by `_get_4x4_mat` at `(x, y)`,
row-major in the source's write order. -/
def _get_4x4_indices (dem_shape : Vec2i) (x y : ℚ) : List ℤ :=
  let x0 := max (wtrunc x - 1) 0
  let y0 := max (wtrunc y - 1) 0
  let x1 := min (x0 + 1) (dem_shape.x - 1) * dem_shape.y
  let x2 := min (x0 + 2) (dem_shape.x - 1) * dem_shape.y
  let x3 := min (x0 + 3) (dem_shape.x - 1) * dem_shape.y
  let x0 := x0 * dem_shape.y
  let y1 := min (y0 + 1) (dem_shape.y - 1)
  let y2 := min (y0 + 2) (dem_shape.y - 1)
  let y3 := min (y0 + 3) (dem_shape.y - 1)
  [x0 + y0, x1 + y0, x2 + y0, x3 + y0,
   x0 + y1, x1 + y1, x2 + y1, x3 + y1,
   x0 + y2, x1 + y2, x2 + y2, x3 + y2,
   x0 + y3, x1 + y3, x2 + y3, x3 + y3]

/-- Batch form of kernel `_get_values_wp_2x2`: one thread per coordinate pair. -/
def _get_values_wp_2x2 (dem : List ℚ) (dem_shape : Vec2i)
    (x y : List ℚ) : List Mat22 :=
  (x.zip y).map (fun p => _get_2x2_mat dem dem_shape p.1 p.2)

/-- Batch form of kernel `_get_values_wp_4x4`: one thread per coordinate pair. -/
def _get_values_wp_4x4 (dem : List ℚ) (dem_shape : Vec2i)
    (x y : List ℚ) : List Mat44 :=
  (x.zip y).map (fun p => _get_4x4_mat dem dem_shape p.1 p.2)

/-- Embedding of `_bilinear_interpolator`: bilinear blend of a 2x2 patch
with fractional parts `x2 = x - trunc(x)`, `y2 = y - trunc(y)`. -/
def _bilinear_interpolator (x y : ℚ) (q : Mat22) : ℚ :=
  let x2 := x - (wtrunc x : ℚ)
  let y2 := y - (wtrunc y : ℚ)
  (1 - x2) * (1 - y2) * q.e00
    + x2 * (1 - y2) * q.e10
    + (1 - x2) * y2 * q.e01
    + x2 * y2 * q.e11

/-- Batch form of kernel `_bilinear_interpolation`: one thread per point. -/
def _bilinear_interpolation (x y : List ℚ) (q : List Mat22) : List ℚ :=
  ((x.zip y).zip q).map (fun p => _bilinear_interpolator p.1.1 p.1.2 p.2)

/-- Embedding of `_cubic_interpolator`: the four cubic convolution
coefficients computed from the fractional part `x2 = x - trunc(x)` with
`a = -0.5`.  The source writes into its in/out `coeffs` argument but
overwrites every component, so the body is a pure function of `x`. -/
def _cubic_interpolator (x : ℚ) : Vec4 :=
  let x2 := x - (wtrunc x : ℚ)
  let a : ℚ := -(1/2)
  { c0 := a * (x2 * (1 - x2 * (2 - x2)))
    c1 := a * (-2 + x2 * x2 * (5 - 3 * x2))
    c2 := a * (x2 * (-1 + x2 * (-4 + 3 * x2)))
    c3 := a * (x2 * x2 * (1 - x2)) }

/-- Per-thread body of the `_bicubic_interpolation` kernel: x-weights blend
the four rows of each column into `a0..a3`, then y-weights blend those into
the output scalar.  The kernel's `coeffs[tid]` scratch cell is written and
read only by thread `tid` and is fully overwritten before each read, so the
body is a pure function of `(x, y, q)`. -/
def _bicubic_interpolation_point (x y : ℚ) (q : Mat44) : ℚ :=
  let cx := _cubic_interpolator x
  let a0 := q.e00 * cx.c0 + q.e10 * cx.c1 + q.e20 * cx.c2 + q.e30 * cx.c3
  let a1 := q.e01 * cx.c0 + q.e11 * cx.c1 + q.e21 * cx.c2 + q.e31 * cx.c3
  let a2 := q.e02 * cx.c0 + q.e12 * cx.c1 + q.e22 * cx.c2 + q.e32 * cx.c3
  let a3 := q.e03 * cx.c0 + q.e13 * cx.c1 + q.e23 * cx.c2 + q.e33 * cx.c3
  let cy := _cubic_interpolator y
  a0 * cy.c0 + a1 * cy.c1 + a2 * cy.c2 + a3 * cy.c3

/-- Batch form of kernel `_bicubic_interpolation`: one thread per point. -/
def _bicubic_interpolation (x y : List ℚ) (q : List Mat44) : List ℚ :=
  ((x.zip y).zip q).map (fun p => _bicubic_interpolation_point p.1.1 p.1.2 p.2)

/-- Embedding of `_normal_on_grid`: the (unnormalized) quad normal
`wp.vec3f(grid_size / 2 * (q[0,1] - q[1,1] - q[1,0] + q[0,0]),
grid_size / 2 * (q[1,0] - q[1,1] - q[0,1] - q[0,0]),
grid_size * grid_size)`. -/
def _normal_on_grid (q : Mat22) (grid_size : ℚ) : Vec3 :=
  { x := grid_size / 2 * (q.e01 - q.e11 - q.e10 + q.e00)
    y := grid_size / 2 * (q.e10 - q.e11 - q.e01 - q.e00)
    z := grid_size * grid_size }

/-- Batch form of kernel `_4points_normal`: `normal[tid] =
_normal_on_grid(q[tid], grid_size)` for each thread. -/
def _4points_normal (q : List Mat22) (grid_size : ℚ) : List Vec3 :=
  q.map (fun m => _normal_on_grid m grid_size)

/-- Squared Euclidean norm of a vector; a vector is unit length exactly
when its squared norm is 1. -/
def normSq (v : Vec3) : ℚ := v.x ^ 2 + v.y ^ 2 + v.z ^ 2

/-- The standard Catmull-Rom cubic convolution weights (Keys kernel with
coefficient a = -1/2) for fractional offset `t`: `c0` weights the sample at
offset -1, `c1` at 0, `c2` at +1, `c3` at +2.  Written from the spec's
description, to be compared with `_cubic_interpolator`. -/
def catmullRomWeights (t : ℚ) : Vec4 :=
  { c0 := (1/2) * (-t ^ 3 + 2 * t ^ 2 - t)
    c1 := (1/2) * (3 * t ^ 3 - 5 * t ^ 2 + 2)
    c2 := (1/2) * (-3 * t ^ 3 + 4 * t ^ 2 + t)
    c3 := (1/2) * (t ^ 3 - t ^ 2) }

/-- Blend of four values by a weight vector (one pass of the separable
cubic convolution). -/
def crBlend (w : Vec4) (v0 v1 v2 v3 : ℚ) : ℚ :=
  w.c0 * v0 + w.c1 * v1 + w.c2 * v2 + w.c3 * v3

/- ----------------------------------------------------------------------
   Collider cache (spec §4.3, §3).  The `CollidersManager` implementation
   is not part of this snapshot (only its test driver and configuration
   are), so the cache is modelled from the spec.
   ---------------------------------------------------------------------- -/

/-- Modelled from the spec: a live collider entry — the `CollidersManager`
source is missing from the snapshot.  `{tile, handle, last_seen_distance}`;
the opaque geometry handle is irrelevant to the cache-size claim and is
omitted.  `dist` stores the squared Euclidean distance from the tile's
center to the reference point (squared distances are order-equivalent to
distances, so all radius comparisons use squared radii). -/
structure ColliderEntry where
  tile : ℤ × ℤ
  dist : ℚ
deriving DecidableEq

/-- Modelled from the spec: the collider-cache configuration
(`build_radius < remove_radius`, `max_cache_size`, tile size). -/
structure CollidersManagerConf where
  tile_size : ℚ
  build_radius : ℚ
  remove_radius : ℚ
  max_cache_size : ℕ
deriving DecidableEq

/-- Squared Euclidean distance between two planar points. -/
def dist2 (a b : ℚ × ℚ) : ℚ := (a.1 - b.1) ^ 2 + (a.2 - b.2) ^ 2

/-- Center of a tile in world space. -/
def tileCenter (tile_size : ℚ) (t : ℤ × ℤ) : ℚ × ℚ :=
  ((t.1 : ℚ) * tile_size + tile_size / 2, (t.2 : ℚ) * tile_size + tile_size / 2)

/-- Modelled from the spec: step 1 of `reconcile` — refresh
`last_seen_distance` of every cached entry against the current reference
point before evaluating build/evict conditions. -/
def updateDistances (ref : ℚ × ℚ) (tile_size : ℚ)
    (cache : List ColliderEntry) : List ColliderEntry :=
  cache.map (fun e => { e with dist := dist2 ref (tileCenter tile_size e.tile) })

/-- Modelled from the spec: the cached entry with the largest
`last_seen_distance`; ties keep the earlier (older) entry, the cache list
being ordered oldest first. -/
def farthestEntry : List ColliderEntry → Option ColliderEntry
  | [] => none
  | e :: es =>
    match farthestEntry es with
    | none => some e
    | some m => if m.dist > e.dist then some m else some e

/-- Modelled from the spec: destroy the (single) live entry for a tile. -/
def evictTile (t : ℤ × ℤ) : List ColliderEntry → List ColliderEntry
  | [] => []
  | e :: es => if e.tile = t then es else e :: evictTile t es

/-- Modelled from the spec: the build decision for one candidate tile with
squared distance `dt` to the reference point.  A tile inside the build
radius and not cached is built if the cache is below capacity; at capacity
the farthest entry is evicted first when it is farther than the candidate,
and otherwise the tile stays absent (capacity contention). -/
def tryBuild (cfg : CollidersManagerConf) (cache : List ColliderEntry)
    (t : ℤ × ℤ) (dt : ℚ) : List ColliderEntry :=
  if dt ≤ cfg.build_radius ^ 2 ∧ ∀ e ∈ cache, e.tile ≠ t then
    if cache.length < cfg.max_cache_size then
      cache ++ [⟨t, dt⟩]
    else
      match farthestEntry cache with
      | none => cache
      | some m => if dt < m.dist then evictTile m.tile cache ++ [⟨t, dt⟩] else cache
  else cache

/-- Modelled from the spec: one `reconcile(reference_position)` pass —
refresh all distances, evict every entry outside the remove radius, then
evaluate the build condition for each candidate tile in order. -/
def reconcile (cfg : CollidersManagerConf) (ref : ℚ × ℚ)
    (candidates : List (ℤ × ℤ)) (cache : List ColliderEntry) :
    List ColliderEntry :=
  let refreshed := updateDistances ref cfg.tile_size cache
  let kept := refreshed.filter (fun e => e.dist ≤ cfg.remove_radius ^ 2)
  candidates.foldl
    (fun c t => tryBuild cfg c t (dist2 ref (tileCenter cfg.tile_size t))) kept

/-- Modelled from the spec: the cache state after driving a sequence of
ticks (reference position plus that tick's candidate tile list) through
`reconcile`, starting from a given cache. -/
def runTicks (cfg : CollidersManagerConf)
    (ticks : List ((ℚ × ℚ) × List (ℤ × ℤ))) (cache : List ColliderEntry) :
    List ColliderEntry :=
  ticks.foldl (fun c tk => reconcile cfg tk.1 tk.2 c) cache

/- ----------------------------------------------------------------------
   Shared helper lemmas.
   ---------------------------------------------------------------------- -/

theorem wtrunc_eq_floor {q : ℚ} (h : 0 ≤ q) : wtrunc q = ⌊q⌋ := by
  simp [wtrunc, h]

theorem wtrunc_intCast (i : ℤ) : wtrunc (i : ℚ) = i := by
  unfold wtrunc
  split
  · exact Int.floor_intCast i
  · have h : (-(i : ℚ)) = ((-i : ℤ) : ℚ) := by push_cast; ring
    rw [h, Int.floor_intCast, neg_neg]

theorem floor_range {x : ℚ} {W : ℤ} (h0 : 0 ≤ x) (h1 : x ≤ (W : ℚ) - 1) :
    0 ≤ ⌊x⌋ ∧ ⌊x⌋ ≤ W - 1 := by
  constructor
  · exact Int.le_floor.mpr (by exact_mod_cast h0)
  · have h : x ≤ ((W - 1 : ℤ) : ℚ) := by push_cast; linarith
    calc ⌊x⌋ ≤ ⌊((W - 1 : ℤ) : ℚ)⌋ := Int.floor_le_floor h
      _ = W - 1 := Int.floor_intCast _

theorem flat_index_bound {r c W H : ℤ} (hr0 : 0 ≤ r) (hr1 : r ≤ W - 1)
    (hc0 : 0 ≤ c) (hc1 : c ≤ H - 1) :
    0 ≤ r * H + c ∧ r * H + c < W * H := by
  have hH : 0 < H := by omega
  constructor
  · have := mul_nonneg hr0 hH.le
    omega
  · have h1 : r * H + c < (r + 1) * H := by nlinarith
    have h2 : (r + 1) * H ≤ W * H := mul_le_mul_of_nonneg_right (by omega) hH.le
    omega

theorem cubic_eq_catmullRom (x : ℚ) :
    _cubic_interpolator x = catmullRomWeights (x - (wtrunc x : ℚ)) := by
  unfold _cubic_interpolator catmullRomWeights
  simp only [Vec4.mk.injEq]
  refine ⟨by ring, by ring, by ring, by ring⟩

/-- The bilinear sampling result exactly as the spec words it: 2x2
neighborhood `{(x0,y0),(x0+1,y0),(x0,y1),(x0+1,y1)}` with each index
separately clamped to bounds, fractional parts from `floor`, and the
four-term weighted sum.  Written from the spec, to be compared with the
source pipeline `_bilinear_interpolator` over `_get_2x2_mat`. -/
def bilinearSpec (dem : List ℚ) (shape : Vec2i) (x y : ℚ) : ℚ :=
  let fx := x - (⌊x⌋ : ℚ)
  let fy := y - (⌊y⌋ : ℚ)
  let x0 := ⌊x⌋
  let x1 := min (⌊x⌋ + 1) (shape.x - 1)
  let y0 := ⌊y⌋
  let y1 := min (⌊y⌋ + 1) (shape.y - 1)
  (1 - fx) * (1 - fy) * demGet dem (x0 * shape.y + y0)
    + fx * (1 - fy) * demGet dem (x1 * shape.y + y0)
    + (1 - fx) * fy * demGet dem (x0 * shape.y + y1)
    + fx * fy * demGet dem (x1 * shape.y + y1)

/-- The bicubic sampling result exactly as the spec words it: a 4x4
neighborhood whose row and column indices are clamped to DEM bounds, and a
separable two-pass Catmull-Rom convolution — x-weights blend the four rows
of each column, y-weights blend the four intermediates.  Written from the
spec, to be compared with the source pipeline
`_bicubic_interpolation_point` over `_get_4x4_mat`. -/
def bicubicSpec (dem : List ℚ) (shape : Vec2i) (x y : ℚ) : ℚ :=
  let fx := x - (⌊x⌋ : ℚ)
  let fy := y - (⌊y⌋ : ℚ)
  let r0 := max (⌊x⌋ - 1) 0
  let r1 := min (r0 + 1) (shape.x - 1)
  let r2 := min (r0 + 2) (shape.x - 1)
  let r3 := min (r0 + 3) (shape.x - 1)
  let c0 := max (⌊y⌋ - 1) 0
  let c1 := min (c0 + 1) (shape.y - 1)
  let c2 := min (c0 + 2) (shape.y - 1)
  let c3 := min (c0 + 3) (shape.y - 1)
  let g := fun r c => demGet dem (r * shape.y + c)
  let wx := catmullRomWeights fx
  let wy := catmullRomWeights fy
  crBlend wy
    (crBlend wx (g r0 c0) (g r1 c0) (g r2 c0) (g r3 c0))
    (crBlend wx (g r0 c1) (g r1 c1) (g r2 c1) (g r3 c1))
    (crBlend wx (g r0 c2) (g r1 c2) (g r2 c2) (g r3 c2))
    (crBlend wx (g r0 c3) (g r1 c3) (g r2 c3) (g r3 c3))

/-- A concrete 3x3 DEM (row-major) used to instantiate the hypotheses of
the conditional theorems on concrete inputs. -/
def demEx33 : List ℚ := [0, 1, 2, 3, 4, 5, 6, 7, 8]

/- ----------------------------------------------------------------------
   Claim theorems.
   ---------------------------------------------------------------------- -/

/-- C5: for every clamped pixel coordinate, the bilinear pipeline (gather
`_get_2x2_mat` then `_bilinear_interpolator`) returns exactly the spec's
weighted sum over the 2x2 neighborhood with separately clamped indices and
fractional parts `fx = px - floor(px)`, `fy = py - floor(py)`. -/
theorem bilinear_matches_spec (dem : List ℚ) (shape : Vec2i) (x y : ℚ)
    (hx0 : 0 ≤ x) (hx1 : x ≤ (shape.x : ℚ) - 1)
    (hy0 : 0 ≤ y) (hy1 : y ≤ (shape.y : ℚ) - 1) :
    _bilinear_interpolator x y (_get_2x2_mat dem shape x y) =
      bilinearSpec dem shape x y := by
  unfold _bilinear_interpolator _get_2x2_mat bilinearSpec
  rw [wtrunc_eq_floor hx0, wtrunc_eq_floor hy0]

/-- C5 witness: the bilinear pipeline evaluated at the center of the first
cell of a concrete 3x3 DEM agrees with the spec formula, whose value there
is 2. -/
theorem bilinear_matches_spec_witness :
    _bilinear_interpolator (1/2) (1/2)
        (_get_2x2_mat demEx33 ⟨3, 3⟩ (1/2) (1/2)) =
      bilinearSpec demEx33 ⟨3, 3⟩ (1/2) (1/2) ∧
    bilinearSpec demEx33 ⟨3, 3⟩ (1/2) (1/2) = 2 := by
  constructor
  · exact bilinear_matches_spec demEx33 ⟨3, 3⟩ (1/2) (1/2)
      (by norm_num) (by norm_num) (by norm_num) (by norm_num)
  · have h1 : ⌊(1/2 : ℚ)⌋ = 0 := by norm_num
    simp only [bilinearSpec, h1]
    norm_num [demGet, demEx33, List.get]

/-- C4: for every clamped pixel coordinate, the bicubic pipeline (gather
`_get_4x4_mat` then the `_bicubic_interpolation` kernel body) computes
exactly the spec's separable two-pass Catmull-Rom convolution with
coefficient a = -1/2 over the 4x4 neighborhood with clamped indices:
x-derived weights blend the four rows into four intermediates, y-derived
weights blend those into the final scalar. -/
theorem bicubic_matches_catmull_rom (dem : List ℚ) (shape : Vec2i) (x y : ℚ)
    (hx0 : 0 ≤ x) (hx1 : x ≤ (shape.x : ℚ) - 1)
    (hy0 : 0 ≤ y) (hy1 : y ≤ (shape.y : ℚ) - 1) :
    _bicubic_interpolation_point x y (_get_4x4_mat dem shape x y) =
      bicubicSpec dem shape x y := by
  unfold _bicubic_interpolation_point _get_4x4_mat bicubicSpec crBlend
  rw [cubic_eq_catmullRom, cubic_eq_catmullRom,
    wtrunc_eq_floor hx0, wtrunc_eq_floor hy0]
  unfold catmullRomWeights
  ring

/-- C4 witness: the bicubic pipeline evaluated at the center of a concrete
3x3 DEM agrees with the spec's Catmull-Rom formula, whose value there
is 4. -/
theorem bicubic_matches_catmull_rom_witness :
    _bicubic_interpolation_point 1 1
        (_get_4x4_mat demEx33 ⟨3, 3⟩ 1 1) =
      bicubicSpec demEx33 ⟨3, 3⟩ 1 1 ∧
    bicubicSpec demEx33 ⟨3, 3⟩ 1 1 = 4 := by
  constructor
  · exact bicubic_matches_catmull_rom demEx33 ⟨3, 3⟩ 1 1
      (by norm_num) (by norm_num) (by norm_num) (by norm_num)
  · have h1 : ⌊(1 : ℚ)⌋ = 1 := by norm_num
    simp only [bicubicSpec, h1]
    norm_num [catmullRomWeights, crBlend, demGet, demEx33, List.get]

/-- C7: for every 2x2 patch `q` and `grid_size`, the unnormalized normal
computed by `_normal_on_grid` equals exactly
`(grid_size/2 * (q01 - q11 - q10 + q00),
  grid_size/2 * (q10 - q11 - q01 - q00), grid_size^2)`. -/
theorem normal_on_grid_formula (q : Mat22) (gs : ℚ) :
    _normal_on_grid q gs =
      ⟨gs / 2 * (q.e01 - q.e11 - q.e10 + q.e00),
       gs / 2 * (q.e10 - q.e11 - q.e01 - q.e00), gs ^ 2⟩ := by
  unfold _normal_on_grid
  congr 1
  ring

/-- C1 counterexample: on the flat 2x2 patch of zeros with `grid_size = 2`
the batch normal operation returns the vector `(0, 0, 4)` — whose squared
norm is 16, not 1 — and raises no error, so the result is neither a
unit-length vector nor a degenerate-normal error report. -/
theorem batch_normal_not_unit :
    _4points_normal [⟨0, 0, 0, 0⟩] 2 = [⟨0, 0, 4⟩] ∧
    normSq ⟨0, 0, 4⟩ ≠ 1 := by
  constructor
  · norm_num [_4points_normal, _normal_on_grid]
  · norm_num [normSq]

/-- C1 amended: the batch normal operation returns, for every input patch,
exactly the unnormalized vector
`(gs/2 * (q01 - q11 - q10 + q00), gs/2 * (q10 - q11 - q01 - q00), gs^2)`;
it performs no normalization to unit length and never reports a
degenerate-normal error. -/
theorem batch_normal_returns_unnormalized (qs : List Mat22) (gs : ℚ) (i : ℕ) :
    (_4points_normal qs gs)[i]? =
      (qs[i]?).map (fun q =>
        (⟨gs / 2 * (q.e01 - q.e11 - q.e10 + q.e00),
          gs / 2 * (q.e10 - q.e11 - q.e01 - q.e00), gs ^ 2⟩ : Vec3)) := by
  unfold _4points_normal
  rw [List.getElem?_map]
  cases hq : qs[i]? with
  | none => rfl
  | some q =>
    simp only [Option.map_some', Option.some.injEq]
    unfold _normal_on_grid
    congr 1
    ring

/-- C2: the `_preprocess` kernel body stores the UNCLAMPED pixel
coordinates: on the point `(10, 0)` with `mpp = 1`, zero offset and DEM
shape `5 x 5` the stored pair is `(10, 0)`, while the clamped value the
claim (and the kernel's own docstring) promises would be `4`.  The
`x[tid] = wp.atomic_min(x, tid, ...)` pattern assigns the atomic's return
value — the OLD cell content — back into the cell, undoing the clamp. -/
theorem preprocess_stores_unclamped :
    _preprocess ⟨10, 0⟩ ⟨0, 0⟩ 1 ⟨5, 5⟩ = (10, 0) ∧
    max 0 (min (10 : ℚ) (5 - 1)) = 4 ∧ (10 : ℚ) ≠ 4 := by
  refine ⟨?_, by norm_num, by norm_num⟩
  norm_num [_preprocess, atomic_min, atomic_max]

/-- C3: because `_preprocess` fails to clamp, an out-of-range query flows
unclamped into the gather: for the query point `(10, 0)` on a `5 x 5` DEM
(25 cells) the stored x coordinate is 10 and `_get_2x2_mat` dereferences
flat index 50, which is out of bounds. -/
theorem pipeline_indexes_out_of_bounds :
    (_preprocess ⟨10, 0⟩ ⟨0, 0⟩ 1 ⟨5, 5⟩).1 = 10 ∧
    (50 : ℤ) ∈ _get_2x2_indices ⟨5, 5⟩ 10 0 ∧ ¬((50 : ℤ) < 5 * 5) := by
  refine ⟨?_, ?_, by norm_num⟩
  · norm_num [_preprocess, atomic_min, atomic_max]
  · norm_num [_get_2x2_indices, wtrunc]

/-- C6: at a query landing exactly on an integer grid coordinate `(i, j)`
strictly inside DEM bounds (zero fractional part in both axes), both the
bilinear pipeline and the bicubic pipeline return the direct DEM lookup
`dem[i * H + j]`. -/
theorem integer_grid_direct_lookup (dem : List ℚ) (shape : Vec2i) (i j : ℤ)
    (hi1 : 1 ≤ i) (hi2 : i ≤ shape.x - 2)
    (hj1 : 1 ≤ j) (hj2 : j ≤ shape.y - 2) :
    _bilinear_interpolator (i : ℚ) (j : ℚ)
        (_get_2x2_mat dem shape (i : ℚ) (j : ℚ)) =
      demGet dem (i * shape.y + j) ∧
    _bicubic_interpolation_point (i : ℚ) (j : ℚ)
        (_get_4x4_mat dem shape (i : ℚ) (j : ℚ)) =
      demGet dem (i * shape.y + j) := by
  have hmx : max (i - 1) 0 = i - 1 := by omega
  have hnx : min (i - 1 + 1) (shape.x - 1) = i := by omega
  have hmy : max (j - 1) 0 = j - 1 := by omega
  have hny : min (j - 1 + 1) (shape.y - 1) = j := by omega
  constructor
  · unfold _bilinear_interpolator _get_2x2_mat
    rw [wtrunc_intCast, wtrunc_intCast]
    simp [sub_self]
  · unfold _bicubic_interpolation_point _get_4x4_mat _cubic_interpolator
    rw [wtrunc_intCast, wtrunc_intCast]
    simp only [sub_self, hmx, hnx, hmy, hny]
    norm_num

/-- C6 witness: on the concrete 3x3 DEM, the query at the integer interior
grid point (1, 1) returns `dem[4] = 4` under both interpolators. -/
theorem integer_grid_direct_lookup_witness :
    (_bilinear_interpolator ((1 : ℤ) : ℚ) ((1 : ℤ) : ℚ)
        (_get_2x2_mat demEx33 ⟨3, 3⟩ ((1 : ℤ) : ℚ) ((1 : ℤ) : ℚ)) =
      demGet demEx33 (1 * 3 + 1) ∧
     _bicubic_interpolation_point ((1 : ℤ) : ℚ) ((1 : ℤ) : ℚ)
        (_get_4x4_mat demEx33 ⟨3, 3⟩ ((1 : ℤ) : ℚ) ((1 : ℤ) : ℚ)) =
      demGet demEx33 (1 * 3 + 1)) ∧
    demGet demEx33 (1 * 3 + 1) = 4 := by
  constructor
  · exact integer_grid_direct_lookup demEx33 ⟨3, 3⟩ 1 1
      (by norm_num) (by norm_num) (by norm_num) (by norm_num)
  · decide

/-- C10: whenever the input coordinates are within `[0, W-1] x [0, H-1]`,
every flat DEM index formed and dereferenced inside `_get_2x2_mat` and
`_get_4x4_mat` lies within `[0, W * H)`, so the gathers never read the
DEM array out of bounds. -/
theorem gather_indices_in_bounds (shape : Vec2i) (x y : ℚ)
    (hx0 : 0 ≤ x) (hx1 : x ≤ (shape.x : ℚ) - 1)
    (hy0 : 0 ≤ y) (hy1 : y ≤ (shape.y : ℚ) - 1) :
    (∀ idx ∈ _get_2x2_indices shape x y,
      0 ≤ idx ∧ idx < shape.x * shape.y) ∧
    (∀ idx ∈ _get_4x4_indices shape x y,
      0 ≤ idx ∧ idx < shape.x * shape.y) := by
  obtain ⟨hfx0, hfx1⟩ := floor_range hx0 hx1
  obtain ⟨hfy0, hfy1⟩ := floor_range hy0 hy1
  constructor
  · intro idx hidx
    simp only [_get_2x2_indices, wtrunc_eq_floor hx0, wtrunc_eq_floor hy0,
      List.mem_cons, List.not_mem_nil, or_false] at hidx
    rcases hidx with rfl | rfl | rfl | rfl <;>
      exact flat_index_bound (by omega) (by omega) (by omega) (by omega)
  · intro idx hidx
    simp only [_get_4x4_indices, wtrunc_eq_floor hx0, wtrunc_eq_floor hy0,
      List.mem_cons, List.not_mem_nil, or_false] at hidx
    rcases hidx with rfl | rfl | rfl | rfl | rfl | rfl | rfl | rfl |
      rfl | rfl | rfl | rfl | rfl | rfl | rfl | rfl <;>
      exact flat_index_bound (by omega) (by omega) (by omega) (by omega)

/-- C10 witness: on a 3x3 DEM shape with the corner query (0, 0), all
gathered flat indices are within `[0, 9)`. -/
theorem gather_indices_in_bounds_witness :
    (∀ idx ∈ _get_2x2_indices ⟨3, 3⟩ 0 0, 0 ≤ idx ∧ idx < 3 * 3) ∧
    (∀ idx ∈ _get_4x4_indices ⟨3, 3⟩ 0 0, 0 ≤ idx ∧ idx < 3 * 3) :=
  gather_indices_in_bounds ⟨3, 3⟩ 0 0
    (by norm_num) (by norm_num) (by norm_num) (by norm_num)

theorem zip_getElem? {α β : Type} (as : List α) (bs : List β) (i : ℕ) :
    (as.zip bs)[i]? =
      (as[i]?).bind (fun a => (bs[i]?).map (fun b => (a, b))) := by
  induction as generalizing bs i with
  | nil => simp
  | cons a as ih =>
    cases bs with
    | nil => simp
    | cons b bs =>
      cases i with
      | zero => simp
      | succ n => simpa using ih bs n

/-- C8: the batch operations are per-point independent and deterministic —
the i-th output of preprocessing, both gathers, bilinear, bicubic and the
normal batch depends only on the i-th input point and the shared read-only
DEM and configuration scalars, so two batches agreeing at index i produce
the same i-th output whatever the other points are. -/
theorem batch_ops_pointwise (dem : List ℚ) (shape : Vec2i) (coord : Vec2)
    (mpp : ℚ) (shapef : Vec2) (gs : ℚ) (i : ℕ)
    (ps1 ps2 : List Vec2) (xs1 xs2 ys1 ys2 : List ℚ)
    (q21 q22 : List Mat22) (q41 q42 : List Mat44)
    (hp : ps1[i]? = ps2[i]?) (hx : xs1[i]? = xs2[i]?)
    (hy : ys1[i]? = ys2[i]?)
    (h2 : q21[i]? = q22[i]?) (h4 : q41[i]? = q42[i]?) :
    (_preprocess_batch ps1 coord mpp shapef)[i]? =
      (_preprocess_batch ps2 coord mpp shapef)[i]? ∧
    (_get_values_wp_2x2 dem shape xs1 ys1)[i]? =
      (_get_values_wp_2x2 dem shape xs2 ys2)[i]? ∧
    (_get_values_wp_4x4 dem shape xs1 ys1)[i]? =
      (_get_values_wp_4x4 dem shape xs2 ys2)[i]? ∧
    (_bilinear_interpolation xs1 ys1 q21)[i]? =
      (_bilinear_interpolation xs2 ys2 q22)[i]? ∧
    (_bicubic_interpolation xs1 ys1 q41)[i]? =
      (_bicubic_interpolation xs2 ys2 q42)[i]? ∧
    (_4points_normal q21 gs)[i]? = (_4points_normal q22 gs)[i]? := by
  simp only [_preprocess_batch, _get_values_wp_2x2, _get_values_wp_4x4,
    _bilinear_interpolation, _bicubic_interpolation, _4points_normal,
    List.getElem?_map, zip_getElem?, hp, hx, hy, h2, h4]
  exact ⟨trivial, trivial, trivial, trivial, trivial, trivial⟩

/-- C8 witness: two concrete batches agree at index 0 but one carries an
extra second point; every batch operation yields the same 0-th output for
both. -/
theorem batch_ops_pointwise_witness :
    (_preprocess_batch [⟨1, 2⟩] ⟨0, 0⟩ 1 ⟨5, 5⟩)[0]? =
      (_preprocess_batch [⟨1, 2⟩, ⟨3, 4⟩] ⟨0, 0⟩ 1 ⟨5, 5⟩)[0]? ∧
    (_get_values_wp_2x2 demEx33 ⟨3, 3⟩ [1] [1])[0]? =
      (_get_values_wp_2x2 demEx33 ⟨3, 3⟩ [1, 2] [1, 0])[0]? ∧
    (_get_values_wp_4x4 demEx33 ⟨3, 3⟩ [1] [1])[0]? =
      (_get_values_wp_4x4 demEx33 ⟨3, 3⟩ [1, 2] [1, 0])[0]? ∧
    (_bilinear_interpolation [1] [1] [⟨0, 0, 0, 0⟩])[0]? =
      (_bilinear_interpolation [1, 2] [1, 0]
        [⟨0, 0, 0, 0⟩, ⟨1, 1, 1, 1⟩])[0]? ∧
    (_bicubic_interpolation [1] [1]
        [⟨0, 0, 0, 0, 0, 0, 0, 0, 0, 0, 0, 0, 0, 0, 0, 0⟩])[0]? =
      (_bicubic_interpolation [1, 2] [1, 0]
        [⟨0, 0, 0, 0, 0, 0, 0, 0, 0, 0, 0, 0, 0, 0, 0, 0⟩,
         ⟨1, 1, 1, 1, 1, 1, 1, 1, 1, 1, 1, 1, 1, 1, 1, 1⟩])[0]? ∧
    (_4points_normal [⟨0, 0, 0, 0⟩] 2)[0]? =
      (_4points_normal [⟨0, 0, 0, 0⟩, ⟨1, 1, 1, 1⟩] 2)[0]? :=
  batch_ops_pointwise demEx33 ⟨3, 3⟩ ⟨0, 0⟩ 1 ⟨5, 5⟩ 2 0
    [⟨1, 2⟩] [⟨1, 2⟩, ⟨3, 4⟩] [1] [1, 2] [1] [1, 0]
    [⟨0, 0, 0, 0⟩] [⟨0, 0, 0, 0⟩, ⟨1, 1, 1, 1⟩]
    [⟨0, 0, 0, 0, 0, 0, 0, 0, 0, 0, 0, 0, 0, 0, 0, 0⟩]
    [⟨0, 0, 0, 0, 0, 0, 0, 0, 0, 0, 0, 0, 0, 0, 0, 0⟩,
     ⟨1, 1, 1, 1, 1, 1, 1, 1, 1, 1, 1, 1, 1, 1, 1, 1⟩]
    rfl rfl rfl rfl rfl

theorem farthestEntry_mem {c : List ColliderEntry} {m : ColliderEntry}
    (h : farthestEntry c = some m) : m ∈ c := by
  induction c with
  | nil => simp [farthestEntry] at h
  | cons e es ih =>
    simp only [farthestEntry] at h
    cases hfe : farthestEntry es with
    | none =>
      rw [hfe] at h
      injection h with h
      exact h ▸ List.mem_cons_self e es
    | some m' =>
      rw [hfe] at h
      have h' : (if m'.dist > e.dist then some m' else some e) = some m := h
      by_cases hd : m'.dist > e.dist
      · rw [if_pos hd] at h'
        injection h' with h'
        subst h'
        exact List.mem_cons_of_mem e (ih hfe)
      · rw [if_neg hd] at h'
        injection h' with h'
        exact h' ▸ List.mem_cons_self e es

theorem evictTile_length {t : ℤ × ℤ} {c : List ColliderEntry}
    (h : ∃ e ∈ c, e.tile = t) : (evictTile t c).length + 1 = c.length := by
  induction c with
  | nil => simp at h
  | cons e es ih =>
    by_cases he : e.tile = t
    · simp [evictTile, he]
    · obtain ⟨e', he', ht'⟩ := h
      rcases List.mem_cons.mp he' with rfl | hmem
      · exact absurd ht' he
      · have := ih ⟨e', hmem, ht'⟩
        simp only [evictTile, if_neg he, List.length_cons]
        omega

theorem tryBuild_length (cfg : CollidersManagerConf)
    (c : List ColliderEntry) (t : ℤ × ℤ) (dt : ℚ)
    (h : c.length ≤ cfg.max_cache_size) :
    (tryBuild cfg c t dt).length ≤ cfg.max_cache_size := by
  unfold tryBuild
  split
  · split
    · simp only [List.length_append, List.length_cons, List.length_nil]
      omega
    · split
      · exact h
      · next m heq =>
        split
        · have hm : m ∈ c := farthestEntry_mem heq
          have hl := evictTile_length (t := m.tile) (c := c) ⟨m, hm, rfl⟩
          simp only [List.length_append, List.length_cons, List.length_nil]
          omega
        · exact h
  · exact h

theorem foldl_tryBuild_length (cfg : CollidersManagerConf)
    (d : ℤ × ℤ → ℚ) (cands : List (ℤ × ℤ)) :
    ∀ c : List ColliderEntry, c.length ≤ cfg.max_cache_size →
      (cands.foldl (fun acc t => tryBuild cfg acc t (d t)) c).length ≤
        cfg.max_cache_size := by
  induction cands with
  | nil => intro c h; exact h
  | cons t ts ih =>
    intro c h
    exact ih _ (tryBuild_length _ _ _ _ h)

theorem reconcile_length (cfg : CollidersManagerConf) (ref : ℚ × ℚ)
    (cands : List (ℤ × ℤ)) (c : List ColliderEntry)
    (h : c.length ≤ cfg.max_cache_size) :
    (reconcile cfg ref cands c).length ≤ cfg.max_cache_size := by
  have hkept :
      ((updateDistances ref cfg.tile_size c).filter
        (fun e => e.dist ≤ cfg.remove_radius ^ 2)).length ≤
        cfg.max_cache_size := by
    refine le_trans (List.length_filter_le _ _) ?_
    simpa [updateDistances] using h
  exact foldl_tryBuild_length cfg _ cands _ hkept

/-- C9: for any sequence of reference-position updates driven through the
collider cache, one `reconcile` per tick starting from the empty cache,
the number of simultaneously-live collider entries is at most
`max_cache_size` after every reconciliation step (i.e. after any prefix of
the tick sequence). -/
theorem cache_size_invariant (cfg : CollidersManagerConf)
    (ticks : List ((ℚ × ℚ) × List (ℤ × ℤ))) (n : ℕ) :
    (runTicks cfg (ticks.take n) []).length ≤ cfg.max_cache_size := by
  have key : ∀ (ts : List ((ℚ × ℚ) × List (ℤ × ℤ)))
      (c : List ColliderEntry), c.length ≤ cfg.max_cache_size →
      (runTicks cfg ts c).length ≤ cfg.max_cache_size := by
    intro ts
    induction ts with
    | nil => intro c h; exact h
    | cons tk ts ih =>
      intro c h
      exact ih _ (reconcile_length _ _ _ _ h)
  exact key _ [] (by simp)

end LunarSim
